import Mathlib

/-!
Verification of the output-location computation core of github-docs-extractor
(src/bin/index.js): `computeOutputRoot` and `buildOutputLocation`, together
with the JavaScript string primitives they use and the part of node's
`path.posix.join` reachable from them.  JavaScript strings are modelled as
Lean `String` values manipulated through their character lists.
-/

namespace GithubDocsExtractor

/-! ## JavaScript string primitives -/

/-- JS `String.prototype.split(sep)` for a single-character separator,
on character lists: splitting the empty string yields `[[]]`. -/
def splitChar (sep : Char) : List Char → List (List Char)
  | [] => [[]]
  | c :: cs =>
    if c = sep then [] :: splitChar sep cs
    else
      match splitChar sep cs with
      | [] => [[c]]
      | h :: t => (c :: h) :: t

/-- JS `s.split(sep)` for a single-character separator. -/
def jsSplit (sep : Char) (s : String) : List String :=
  (splitChar sep s.data).map String.mk

/-- JS `filePath.replaceAll('\\', '/')` (line 65 of src/bin/index.js). -/
def normalizeSeps (s : String) : String :=
  String.mk (s.data.map fun c => if c = '\\' then '/' else c)

/-- JS `s.startsWith(p)`. -/
def jsStartsWith (s p : String) : Bool :=
  p.data.isPrefixOf s.data

/-- JS `Array.prototype.join(sep)`. -/
def joinWith (sep : String) : List String → String
  | [] => ""
  | [x] => x
  | x :: y :: t => x ++ sep ++ joinWith sep (y :: t)

/-- JS truthiness of a `string | undefined` value: `undefined` and the
empty string are falsy, every other string is truthy. -/
def truthy : Option String → Bool
  | none => false
  | some v => v != ""

/-- Character membership in a string. -/
def hasChar (s : String) (c : Char) : Bool :=
  decide (c ∈ s.data)

/-! ## node path.posix.join (for the `directory` field) -/

/-- One step of node's `normalizeString`: resolve the next path segment
against the (reversed) stack of kept segments, handling `""`, `"."`
and `".."`. -/
def normStep (allowAboveRoot : Bool) (res : List String) (s : String) : List String :=
  if s = "" || s = "." then res
  else if s = ".." then
    match res with
    | [] => if allowAboveRoot then [".."] else []
    | last :: rest => if last = ".." then (if allowAboveRoot then ".." :: res else res) else rest
  else s :: res

/-- node `path.posix.normalize`. -/
def nodeNormalize (p : String) : String :=
  if p = "" then "."
  else
    let isAbs := p.data.head? == some '/'
    let trailing := p.data.getLast? == some '/'
    let body := joinWith "/" (((jsSplit '/' p).foldl (normStep (!isAbs)) []).reverse)
    if body = "" then (if isAbs then "/" else if trailing then "./" else ".")
    else
      let body2 := if trailing then body ++ "/" else body
      if isAbs then "/" ++ body2 else body2

/-- node `path.posix.join(a, b)`: empty arguments are skipped, the rest
are joined with `/` and the result is normalized. -/
def pathJoin (a b : String) : String :=
  if a = "" && b = "" then "."
  else if a = "" then nodeNormalize b
  else if b = "" then nodeNormalize a
  else nodeNormalize (a ++ "/" ++ b)

/-! ## computeOutputRoot (src/bin/index.js lines 131-148) -/

/-- The reserved documentation-container names (line 28). -/
def DOC_CONTAINER_NAMES : List String := ["doc", "docs", "documentation"]

/-- JS `DOC_CONTAINER_NAMES.has(s)`. -/
def isDocContainer (s : String) : Bool :=
  DOC_CONTAINER_NAMES.contains s

/-- `documentPath.split('/').filter(Boolean)` (line 132). -/
def segmentsOf (documentPath : String) : List String :=
  (jsSplit '/' documentPath).filter (fun s => s != "")

/-- Body of `computeOutputRoot` after segmentation (lines 134-147).
`none` models the JS `undefined` return value.  When the segment list is
empty, `segments[0]` is JS `undefined`, which is not in the container
set; `headD ""` is faithful because `""` is never a filtered segment and
is not a container name. -/
def rootFromSegments (segments : List String) : Option String :=
  if segments.length = 1 then
    (if isDocContainer (segments.headD "") then none else some (segments.headD ""))
  else
    let effectiveSegments :=
      if isDocContainer (segments.headD "") then segments.tail else segments
    if effectiveSegments.length = 1 then some (effectiveSegments.headD "")
    else some (joinWith "-" (effectiveSegments.drop (effectiveSegments.length - 2)))

/-- `computeOutputRoot(documentPath)` (lines 131-148). -/
def computeOutputRoot (documentPath : String) : Option String :=
  rootFromSegments (segmentsOf documentPath)

/-! ## buildOutputLocation (src/bin/index.js lines 64-92) -/

/-- The result value of `buildOutputLocation`. -/
structure OutputLocation where
  directory : String
  filename : String
deriving DecidableEq, Repr

/-- Lines 65-68: normalize backslashes, then strip `documentPath + "/"`
when it heads the normalized path, else keep the full normalized path. -/
def relativePathOf (filePath documentPath : String) : String :=
  if jsStartsWith (normalizeSeps filePath) (documentPath ++ "/") then
    String.mk ((normalizeSeps filePath).data.drop (documentPath.length + 1))
  else normalizeSeps filePath

/-- Lines 71-79: the prefix-segment list built from the folder parts and
the output root.  `parts` is the folder-part list (the split relative
path without its last element). -/
def prefixPartsOf (parts : List String) (outputRoot : Option String) : List String :=
  (if truthy outputRoot then [outputRoot.getD ""] else []) ++
  (if parts.length > 0 && !(truthy outputRoot && (parts.headD "" == outputRoot.getD "")) then
    parts
  else [])

/-- Line 70: `parts.pop()` — the last element of the split relative path
(the split list is never empty, so the default is never used). -/
def basePartOf (parts : List String) : String :=
  parts.getLastD ""

/-- Lines 81-83: join the prefix segments with `-` and append a trailing
`-`; the empty list gives the empty string. -/
def folderPfxOf (prefixParts : List String) : String :=
  if prefixParts.length > 0 then joinWith "-" prefixParts ++ "-" else ""

/-- Lines 84-86: prepend the folder prefix unless the base filename
already starts with it. -/
def finalFilenameOf (filename folderPfx : String) : String :=
  if jsStartsWith filename folderPfx then filename else folderPfx ++ filename

/-- Lines 69-91 applied to an already-computed relative path. -/
def buildFromRelative (relativePath : String) (outputRoot : Option String)
    (outputDirectory : String) : OutputLocation :=
  let parts := jsSplit '/' relativePath
  let folderPfx := folderPfxOf (prefixPartsOf parts.dropLast outputRoot)
  { directory :=
      if truthy outputRoot then pathJoin outputDirectory (outputRoot.getD "") else outputDirectory
    filename := finalFilenameOf (basePartOf parts) folderPfx }

/-- `buildOutputLocation(filePath, documentPath, outputRoot, outputDirectory)`
(lines 64-92). -/
def buildOutputLocation (filePath documentPath : String) (outputRoot : Option String)
    (outputDirectory : String) : OutputLocation :=
  buildFromRelative (relativePathOf filePath documentPath) outputRoot outputDirectory

/-! ## Lemmas about the JS string primitives -/

theorem splitChar_ne_nil (sep : Char) (l : List Char) : splitChar sep l ≠ [] := by
  induction l with
  | nil => simp [splitChar]
  | cons c cs ih =>
    simp only [splitChar]
    split
    · simp
    · split <;> simp

theorem not_sep_of_mem_splitChar (sep : Char) (l : List Char) :
    ∀ p ∈ splitChar sep l, sep ∉ p := by
  induction l with
  | nil =>
    intro p hp
    simp only [splitChar, List.mem_singleton] at hp
    simp [hp]
  | cons c cs ih =>
    intro p hp
    simp only [splitChar] at hp
    by_cases hc : c = sep
    · rw [if_pos hc] at hp
      rcases List.mem_cons.mp hp with h | h
      · simp [h]
      · exact ih p h
    · rw [if_neg hc] at hp
      cases hsplit : splitChar sep cs with
      | nil => exact absurd hsplit (splitChar_ne_nil sep cs)
      | cons hd tl =>
        rw [hsplit] at hp
        rcases List.mem_cons.mp hp with h | h
        · subst h
          intro hmem
          rcases List.mem_cons.mp hmem with h | h
          · exact hc h.symm
          · exact ih hd (hsplit ▸ List.mem_cons_self hd tl) h
        · exact ih p (hsplit ▸ List.mem_cons_of_mem hd h)

theorem mem_of_mem_splitChar (sep : Char) (l : List Char) :
    ∀ p ∈ splitChar sep l, ∀ c ∈ p, c ∈ l := by
  induction l with
  | nil =>
    intro p hp
    simp only [splitChar, List.mem_singleton] at hp
    simp [hp]
  | cons a cs ih =>
    intro p hp c hcp
    simp only [splitChar] at hp
    by_cases ha : a = sep
    · rw [if_pos ha] at hp
      rcases List.mem_cons.mp hp with h | h
      · subst h; simp at hcp
      · exact List.mem_cons_of_mem a (ih p h c hcp)
    · rw [if_neg ha] at hp
      cases hsplit : splitChar sep cs with
      | nil => exact absurd hsplit (splitChar_ne_nil sep cs)
      | cons hd tl =>
        rw [hsplit] at hp
        rcases List.mem_cons.mp hp with h | h
        · subst h
          rcases List.mem_cons.mp hcp with h | h
          · simp [h]
          · exact List.mem_cons_of_mem a (ih hd (hsplit ▸ List.mem_cons_self hd tl) c h)
        · exact List.mem_cons_of_mem a (ih p (hsplit ▸ List.mem_cons_of_mem hd h) c hcp)

theorem splitChar_of_not_mem (sep : Char) (l : List Char) (h : sep ∉ l) :
    splitChar sep l = [l] := by
  induction l with
  | nil => rfl
  | cons c cs ih =>
    have hc : c ≠ sep := fun hx => h (hx ▸ List.mem_cons_self c cs)
    have hcs : sep ∉ cs := fun hx => h (List.mem_cons_of_mem c hx)
    simp only [splitChar, if_neg hc, ih hcs]

theorem splitChar_append (sep : Char) (l₁ l₂ : List Char) :
    splitChar sep (l₁ ++ sep :: l₂) = splitChar sep l₁ ++ splitChar sep l₂ := by
  induction l₁ with
  | nil => simp [splitChar]
  | cons c cs ih =>
    rw [List.cons_append]
    by_cases hc : c = sep
    · simp only [splitChar, if_pos hc, ih]
      rfl
    · simp only [splitChar, if_neg hc, ih]
      cases hsplit : splitChar sep cs with
      | nil => exact absurd hsplit (splitChar_ne_nil sep cs)
      | cons hd tl => rfl

theorem jsSplit_ne_nil (sep : Char) (s : String) : jsSplit sep s ≠ [] := by
  unfold jsSplit
  intro h
  exact splitChar_ne_nil sep s.data (List.map_eq_nil_iff.mp h)

theorem mem_jsSplit (sep : Char) (s p : String) (hp : p ∈ jsSplit sep s) :
    sep ∉ p.data ∧ ∀ c ∈ p.data, c ∈ s.data := by
  rcases List.mem_map.mp hp with ⟨piece, hpiece, hmk⟩
  have hdata : p.data = piece := by rw [← hmk]
  rw [hdata]
  exact ⟨not_sep_of_mem_splitChar sep s.data piece hpiece,
    fun c hc => mem_of_mem_splitChar sep s.data piece hpiece c hc⟩

theorem jsSplit_of_not_mem (sep : Char) (s : String) (h : sep ∉ s.data) :
    jsSplit sep s = [s] := by
  unfold jsSplit
  rw [splitChar_of_not_mem sep s.data h]
  rfl

theorem normalizeSeps_no_backslash (s : String) : '\\' ∉ (normalizeSeps s).data := by
  intro hmem
  have : (normalizeSeps s).data = s.data.map (fun c => if c = '\\' then '/' else c) := rfl
  rw [this] at hmem
  rcases List.mem_map.mp hmem with ⟨a, _, ha⟩
  by_cases h : a = '\\' <;> simp [h] at ha

theorem normalizeSeps_eq_of_no_backslash (s : String) (h : '\\' ∉ s.data) :
    normalizeSeps s = s := by
  apply String.ext
  show s.data.map (fun c => if c = '\\' then '/' else c) = s.data
  conv_rhs => rw [← List.map_id s.data]
  apply List.map_congr_left
  intro a ha
  have : a ≠ '\\' := fun hx => h (hx ▸ ha)
  simp [this]

theorem jsStartsWith_iff (s p : String) : jsStartsWith s p = true ↔ p.data <+: s.data := by
  simp [jsStartsWith, List.isPrefixOf_iff_prefix]

theorem jsStartsWith_empty (s : String) : jsStartsWith s "" = true := by
  rw [jsStartsWith_iff]
  exact List.nil_prefix

theorem jsStartsWith_false_of_missing (s p : String) (c : Char)
    (hcp : c ∈ p.data) (hcs : c ∉ s.data) : jsStartsWith s p = false := by
  cases h : jsStartsWith s p
  · rfl
  · exfalso
    rcases (jsStartsWith_iff s p).mp h with ⟨t, ht⟩
    exact hcs (ht ▸ List.mem_append_left t hcp)

theorem mem_data_joinWith (sep : String) :
    ∀ (l : List String) (c : Char), c ∈ (joinWith sep l).data →
      c ∈ sep.data ∨ ∃ x ∈ l, c ∈ x.data
  | [], c, hc => by simp [joinWith] at hc
  | [x], c, hc => Or.inr ⟨x, List.mem_singleton_self x, hc⟩
  | x :: y :: t, c, hc => by
    simp only [joinWith, String.data_append, List.mem_append] at hc
    rcases hc with (hc | hc) | hc
    · exact Or.inr ⟨x, List.mem_cons_self x (y :: t), hc⟩
    · exact Or.inl hc
    · rcases mem_data_joinWith sep (y :: t) c hc with h | ⟨z, hz, hcz⟩
      · exact Or.inl h
      · exact Or.inr ⟨z, List.mem_cons_of_mem x hz, hcz⟩

theorem joinWith_cons_prefix (sep x : String) (l : List String) :
    (x ++ sep).data <+: (joinWith sep (x :: l) ++ sep).data := by
  cases l with
  | nil => exact List.prefix_refl _
  | cons y t =>
    show (x ++ sep).data <+: ((x ++ sep ++ joinWith sep (y :: t)) ++ sep).data
    refine ⟨(joinWith sep (y :: t)).data ++ sep.data, ?_⟩
    simp [String.data_append, List.append_assoc]

theorem getLastD_mem (l : List String) (d : String) (h : l ≠ []) : l.getLastD d ∈ l := by
  cases l with
  | nil => exact absurd rfl h
  | cons a t =>
    rw [List.getLastD_eq_getLast?, List.getLast?_eq_getLast (a :: t) (List.cons_ne_nil a t)]
    exact Option.getD_some ▸ List.getLast_mem (List.cons_ne_nil a t)

theorem truthy_some_true (r : String) (h : r ≠ "") : truthy (some r) = true := by
  simp [truthy, h]

/-! ## Lemmas about the components of buildOutputLocation -/

theorem mem_prefixPartsOf (parts : List String) (root : Option String) (x : String)
    (hx : x ∈ prefixPartsOf parts root) : x ∈ parts ∨ ∃ r, root = some r ∧ x = r := by
  unfold prefixPartsOf at hx
  rcases List.mem_append.mp hx with h | h
  · cases root with
    | none => simp [truthy] at h
    | some r =>
      by_cases hr : r = ""
      · simp [truthy, hr] at h
      · rw [truthy_some_true r hr, if_pos rfl] at h
        exact Or.inr ⟨r, rfl, by simpa using h⟩
  · by_cases hcond :
        (parts.length > 0 && !(truthy root && (parts.headD "" == root.getD ""))) = true
    · rw [if_pos hcond] at h
      exact Or.inl h
    · rw [if_neg hcond] at h
      simp at h

theorem mem_data_folderPfxOf (pp : List String) (c : Char)
    (hc : c ∈ (folderPfxOf pp).data) : c = '-' ∨ ∃ x ∈ pp, c ∈ x.data := by
  unfold folderPfxOf at hc
  by_cases hlen : pp.length > 0
  · rw [if_pos hlen] at hc
    rw [String.data_append] at hc
    rcases List.mem_append.mp hc with h | h
    · rcases mem_data_joinWith "-" pp c h with h | h
      · exact Or.inl (List.mem_singleton.mp h)
      · exact Or.inr h
    · exact Or.inl (List.mem_singleton.mp h)
  · rw [if_neg hlen] at hc
    simp at hc

theorem mem_data_finalFilenameOf (fn pfx : String) (c : Char)
    (hc : c ∈ (finalFilenameOf fn pfx).data) : c ∈ fn.data ∨ c ∈ pfx.data := by
  unfold finalFilenameOf at hc
  by_cases h : jsStartsWith fn pfx = true
  · rw [if_pos h] at hc
    exact Or.inl hc
  · rw [if_neg h] at hc
    rw [String.data_append] at hc
    exact (List.mem_append.mp hc).symm

theorem relativePathOf_chars (fp dp : String) (c : Char)
    (hc : c ∈ (relativePathOf fp dp).data) : c ∈ (normalizeSeps fp).data := by
  unfold relativePathOf at hc
  by_cases h : jsStartsWith (normalizeSeps fp) (dp ++ "/") = true
  · rw [if_pos h] at hc
    exact List.mem_of_mem_drop hc
  · rwa [if_neg h] at hc

theorem relativePathOf_no_backslash (fp dp : String) :
    '\\' ∉ (relativePathOf fp dp).data :=
  fun hmem => normalizeSeps_no_backslash fp (relativePathOf_chars fp dp '\\' hmem)

/-- Characters of the filename produced by `buildFromRelative` are either
the hyphen, characters of a piece of the split relative path, or
characters of the output root. -/
theorem mem_data_build_filename (relPath : String) (root : Option String) (out : String)
    (c : Char) (hc : c ∈ (buildFromRelative relPath root out).filename.data) :
    c = '-' ∨ (∃ p ∈ jsSplit '/' relPath, c ∈ p.data) ∨ ∃ r, root = some r ∧ c ∈ r.data := by
  have hc2 : c ∈ (finalFilenameOf (basePartOf (jsSplit '/' relPath))
      (folderPfxOf (prefixPartsOf (jsSplit '/' relPath).dropLast root))).data := hc
  rcases mem_data_finalFilenameOf _ _ c hc2 with h | h
  · refine Or.inr (Or.inl ⟨basePartOf (jsSplit '/' relPath), ?_, h⟩)
    exact getLastD_mem _ "" (jsSplit_ne_nil '/' relPath)
  · rcases mem_data_folderPfxOf _ c h with h | ⟨x, hx, hcx⟩
    · exact Or.inl h
    · rcases mem_prefixPartsOf _ root x hx with h | ⟨r, hr, hxr⟩
      · exact Or.inr (Or.inl ⟨x, (List.dropLast_sublist _).subset h, hcx⟩)
      · exact Or.inr (Or.inr ⟨r, hr, hxr ▸ hcx⟩)

/-- Core of the filename invariant: when the output root is free of path
separators, so is the filename. -/
theorem build_filename_no_sep (fp dp : String) (root : Option String) (out : String)
    (hroot : ∀ r, root = some r → '/' ∉ r.data ∧ '\\' ∉ r.data) :
    '/' ∉ (buildOutputLocation fp dp root out).filename.data ∧
    '\\' ∉ (buildOutputLocation fp dp root out).filename.data := by
  constructor
  · intro hmem
    rcases mem_data_build_filename (relativePathOf fp dp) root out '/' hmem with
      h | ⟨p, hp, hcp⟩ | ⟨r, hr, hcr⟩
    · exact absurd h (by decide)
    · exact (mem_jsSplit '/' _ p hp).1 hcp
    · exact (hroot r hr).1 hcr
  · intro hmem
    rcases mem_data_build_filename (relativePathOf fp dp) root out '\\' hmem with
      h | ⟨p, hp, hcp⟩ | ⟨r, hr, hcr⟩
    · exact absurd h (by decide)
    · exact relativePathOf_no_backslash fp dp ((mem_jsSplit '/' _ p hp).2 '\\' hcp)
    · exact (hroot r hr).2 hcr

/-! ## Lemmas for the idempotence of the filename computation -/

theorem prefixPartsOf_some (parts : List String) (r : String) (hr : r ≠ "") :
    prefixPartsOf parts (some r) =
      r :: (if parts.length > 0 && !(parts.headD "" == r) then parts else []) := by
  unfold prefixPartsOf
  rw [truthy_some_true r hr]
  simp

theorem prefixPartsOf_nil_parts (root : Option String) :
    prefixPartsOf [] root = if truthy root then [root.getD ""] else [] := by
  unfold prefixPartsOf
  simp

theorem folderPfxOf_cons (r : String) (Y : List String) :
    (r ++ "-").data <+: (folderPfxOf (r :: Y)).data := by
  unfold folderPfxOf
  rw [if_pos (by simp)]
  exact joinWith_cons_prefix "-" r Y

/-- The filename produced with a truthy output root always starts with
`outputRoot + "-"`. -/
theorem filename_startsWith_root (relPath r out : String) (hr : r ≠ "") :
    jsStartsWith (buildFromRelative relPath (some r) out).filename (r ++ "-") = true := by
  have hfn : (buildFromRelative relPath (some r) out).filename =
      finalFilenameOf (basePartOf (jsSplit '/' relPath))
        (folderPfxOf (prefixPartsOf (jsSplit '/' relPath).dropLast (some r))) := rfl
  obtain ⟨Y, hY⟩ : ∃ Y, prefixPartsOf (jsSplit '/' relPath).dropLast (some r) = r :: Y :=
    ⟨_, prefixPartsOf_some _ r hr⟩
  rw [jsStartsWith_iff, hfn, hY]
  have hpfx := folderPfxOf_cons r Y
  unfold finalFilenameOf
  split
  · rename_i h
    exact hpfx.trans ((jsStartsWith_iff _ _).mp h)
  · rw [String.data_append]
    exact hpfx.trans (List.prefix_append _ _)

theorem buildOutputLocation_eq (fp dp : String) (root : Option String) (out : String) :
    buildOutputLocation fp dp root out = buildFromRelative (relativePathOf fp dp) root out :=
  rfl

theorem relativePathOf_flat (f dp : String) (hslash : '/' ∉ f.data)
    (hback : '\\' ∉ f.data) : relativePathOf f dp = f := by
  unfold relativePathOf
  rw [normalizeSeps_eq_of_no_backslash f hback]
  rw [jsStartsWith_false_of_missing f (dp ++ "/") '/'
    (by rw [String.data_append]; exact List.mem_append_right _ (by decide)) hslash]
  simp

theorem buildFromRelative_flat_filename (f : String) (root : Option String) (out : String)
    (hslash : '/' ∉ f.data) :
    (buildFromRelative f root out).filename =
      finalFilenameOf f (folderPfxOf (prefixPartsOf [] root)) := by
  have h0 : (buildFromRelative f root out).filename =
      finalFilenameOf (basePartOf (jsSplit '/' f))
        (folderPfxOf (prefixPartsOf (jsSplit '/' f).dropLast root)) := rfl
  rw [h0, jsSplit_of_not_mem '/' f hslash]
  rfl

/-! ## Lemmas about rootFromSegments on explicit segment shapes -/

theorem rootFromSegments_single (s : String) :
    rootFromSegments [s] = if isDocContainer s then none else some s := by
  unfold rootFromSegments
  simp

theorem rootFromSegments_pair_container (c e : String) (hc : isDocContainer c = true) :
    rootFromSegments [c, e] = some e := by
  unfold rootFromSegments
  simp [hc]

theorem rootFromSegments_multi (init : List String) (a b : String)
    (hhead : isDocContainer ((init ++ [a, b]).headD "") = false) :
    rootFromSegments (init ++ [a, b]) = some (a ++ "-" ++ b) := by
  have hlen : (init ++ [a, b]).length = init.length + 2 := by simp
  unfold rootFromSegments
  rw [if_neg (by rw [hlen]; omega), hhead]
  simp only [Bool.false_eq_true, if_false]
  rw [if_neg (by rw [hlen]; omega), hlen, Nat.add_sub_cancel, List.drop_left]
  rfl

theorem rootFromSegments_container_multi (c : String) (init : List String) (a b : String)
    (hc : isDocContainer c = true) :
    rootFromSegments (c :: (init ++ [a, b])) = some (a ++ "-" ++ b) := by
  have hlen : (c :: (init ++ [a, b])).length = init.length + 3 := by simp
  unfold rootFromSegments
  rw [if_neg (by rw [hlen]; omega)]
  have hhd : (c :: (init ++ [a, b])).headD "" = c := rfl
  rw [hhd, hc]
  simp only [if_true]
  have htl : (c :: (init ++ [a, b])).tail = init ++ [a, b] := rfl
  rw [htl, if_neg (by simp)]
  have hlen2 : (init ++ [a, b]).length = init.length + 2 := by simp
  rw [hlen2, Nat.add_sub_cancel, List.drop_left]
  rfl

/-! ## Lemmas about segmentation and separators -/

theorem data_sep_append (a b : String) : (a ++ "/" ++ b).data = a.data ++ '/' :: b.data := by
  rw [String.data_append, String.data_append, List.append_assoc]
  rfl

theorem segmentsOf_sep_append (a b : String) :
    segmentsOf (a ++ "/" ++ b) = segmentsOf a ++ segmentsOf b := by
  unfold segmentsOf jsSplit
  rw [data_sep_append, splitChar_append, List.map_append, List.filter_append]

theorem segmentsOf_empty : segmentsOf "" = [] := by decide

theorem segmentsOf_leading_sep (s : String) : segmentsOf ("/" ++ s) = segmentsOf s := by
  have h : ("/" : String) ++ s = "" ++ "/" ++ s := by
    apply String.ext
    rw [String.data_append, String.data_append, String.data_append]
    rfl
  rw [h, segmentsOf_sep_append, segmentsOf_empty, List.nil_append]

theorem segmentsOf_trailing_sep (s : String) : segmentsOf (s ++ "/") = segmentsOf s := by
  have h : s ++ "/" = s ++ "/" ++ "" := by
    apply String.ext
    rw [String.data_append, String.data_append, String.data_append, List.append_nil]
  rw [h, segmentsOf_sep_append, segmentsOf_empty, List.append_nil]

theorem segmentsOf_double_sep (a b : String) :
    segmentsOf (a ++ "//" ++ b) = segmentsOf (a ++ "/" ++ b) := by
  have h : a ++ "//" ++ b = (a ++ "/") ++ "/" ++ b := by
    apply String.ext
    simp only [String.data_append, List.append_assoc]
    rfl
  rw [h, segmentsOf_sep_append, segmentsOf_sep_append, segmentsOf_trailing_sep]

/-! ## Claims -/

/-- C1: for every documentation path, `computeOutputRoot` follows the
specified algorithm after segmentation: a single container segment yields
absent, any other single segment is returned verbatim; with two or more
segments a leading container segment is dropped, a single remaining
effective segment is returned verbatim, and otherwise the last two
effective segments are joined with a single hyphen in original order; and
all seven literal scenarios hold. -/
theorem c1_computeOutputRoot_algorithm :
    (∀ dp s, segmentsOf dp = [s] → isDocContainer s = true → computeOutputRoot dp = none) ∧
    (∀ dp s, segmentsOf dp = [s] → isDocContainer s = false → computeOutputRoot dp = some s) ∧
    (∀ dp c e, segmentsOf dp = [c, e] → isDocContainer c = true →
      computeOutputRoot dp = some e) ∧
    (∀ dp c init a b, segmentsOf dp = c :: (init ++ [a, b]) → isDocContainer c = true →
      computeOutputRoot dp = some (a ++ "-" ++ b)) ∧
    (∀ dp init a b, segmentsOf dp = init ++ [a, b] →
      isDocContainer ((init ++ [a, b]).headD "") = false →
      computeOutputRoot dp = some (a ++ "-" ++ b)) ∧
    computeOutputRoot "docs" = none ∧
    computeOutputRoot "docs/code" = some "code" ∧
    computeOutputRoot "docs/code/docs" = some "code-docs" ∧
    computeOutputRoot "packages/react/docs" = some "react-docs" ∧
    computeOutputRoot "react/three/docs/v1" = some "docs-v1" ∧
    computeOutputRoot "examples/with-mdx" = some "examples-with-mdx" ∧
    computeOutputRoot "help" = some "help" := by
  refine ⟨?_, ?_, ?_, ?_, ?_, by decide, by decide, by decide, by decide, by decide,
    by decide, by decide⟩
  · intro dp s h hc
    unfold computeOutputRoot
    rw [h, rootFromSegments_single, if_pos hc]
  · intro dp s h hc
    unfold computeOutputRoot
    rw [h, rootFromSegments_single, if_neg (by simp [hc])]
  · intro dp c e h hc
    unfold computeOutputRoot
    rw [h, rootFromSegments_pair_container c e hc]
  · intro dp c init a b h hc
    unfold computeOutputRoot
    rw [h, rootFromSegments_container_multi c init a b hc]
  · intro dp init a b h hc
    unfold computeOutputRoot
    rw [h, rootFromSegments_multi init a b hc]

/-- Witness for C1: the universal conjuncts applied at concrete inputs. -/
theorem c1_computeOutputRoot_algorithm_witness :
    computeOutputRoot "docs" = none ∧
    computeOutputRoot "packages/react/docs" = some ("react" ++ "-" ++ "docs") ∧
    computeOutputRoot "docs/code/x/y" = some ("x" ++ "-" ++ "y") :=
  ⟨c1_computeOutputRoot_algorithm.1 "docs" "docs" (by decide) (by decide),
   c1_computeOutputRoot_algorithm.2.2.2.2.1 "packages/react/docs" ["packages"] "react" "docs"
     (by decide) (by decide),
   c1_computeOutputRoot_algorithm.2.2.2.1 "docs/code/x/y" "docs" ["code"] "x" "y"
     (by decide) (by decide)⟩

/-- C2 counterexample: the first literal scenario's directory is
`"output/code"` in the code (node `path.join` normalizes away the
leading `./`), not `"./output/code"` as the claim states. -/
theorem c2_counterexample :
    (buildOutputLocation "docs/code/api.md" "docs/code" (some "code") "./output").directory ≠
      "./output/code" := by decide

/-- C2 amended: the two scenarios hold with directory `"output/code"`
(the filenames are exactly as claimed), and in general the directory is
the base output directory path-joined with the output root when the
root is truthy, else the base output directory itself. -/
theorem c2_build_scenarios :
    buildOutputLocation "docs/code/api.md" "docs/code" (some "code") "./output" =
      { directory := "output/code", filename := "code-api.md" } ∧
    buildOutputLocation "docs/guide.md" "docs" none "./output" =
      { directory := "./output", filename := "guide.md" } ∧
    ∀ fp dp root out, (buildOutputLocation fp dp root out).directory =
      if truthy root then pathJoin out (root.getD "") else out :=
  ⟨by decide, by decide, fun _ _ _ _ => rfl⟩

/-- C3 counterexample: an output root containing a separator leaks it
into the filename, so the invariant fails for arbitrary quadruples. -/
theorem c3_counterexample :
    hasChar (buildOutputLocation "x.md" "d" (some "a/b") "o").filename '/' = true := by
  decide

/-- C3 amended: whenever the output root (if present) contains no `/`
and no `\`, the filename contains neither separator. -/
theorem c3_filename_no_separators (fp dp : String) (root : Option String) (out : String)
    (hroot : ∀ r, root = some r → hasChar r '/' = false ∧ hasChar r '\\' = false) :
    hasChar (buildOutputLocation fp dp root out).filename '/' = false ∧
    hasChar (buildOutputLocation fp dp root out).filename '\\' = false := by
  have h := build_filename_no_sep fp dp root out (fun r hr =>
    ⟨decide_eq_false_iff_not.mp (hroot r hr).1, decide_eq_false_iff_not.mp (hroot r hr).2⟩)
  exact ⟨decide_eq_false_iff_not.mpr h.1, decide_eq_false_iff_not.mpr h.2⟩

/-- Witness for C3 at a concrete quadruple. -/
theorem c3_filename_no_separators_witness :
    hasChar (buildOutputLocation "docs/api/guide.md" "docs" (some "code") "./output").filename
      '/' = false :=
  (c3_filename_no_separators "docs/api/guide.md" "docs" (some "code") "./output"
    (fun r hr => by cases hr; exact ⟨by decide, by decide⟩)).1

/-- C4 counterexample: with an output root containing a separator,
re-feeding the produced filename changes it again. -/
theorem c4_counterexample :
    (buildOutputLocation (buildOutputLocation "x.md" "d" (some "a/b") "o").filename
      "d" (some "a/b") "o").filename ≠
      (buildOutputLocation "x.md" "d" (some "a/b") "o").filename := by decide

/-- C4 amended: whenever the output root (if present) contains no `/`
and no `\`, feeding the produced filename back in under the same prefix
context yields the same filename, with no prefix re-added. -/
theorem c4_build_filename_idempotent (fp dp : String) (root : Option String) (out : String)
    (hroot : ∀ r, root = some r → hasChar r '/' = false ∧ hasChar r '\\' = false) :
    (buildOutputLocation (buildOutputLocation fp dp root out).filename dp root out).filename =
      (buildOutputLocation fp dp root out).filename := by
  have hroot2 : ∀ r, root = some r → '/' ∉ r.data ∧ '\\' ∉ r.data := fun r hr =>
    ⟨decide_eq_false_iff_not.mp (hroot r hr).1, decide_eq_false_iff_not.mp (hroot r hr).2⟩
  obtain ⟨hs, hb⟩ := build_filename_no_sep fp dp root out hroot2
  have h1 : buildOutputLocation (buildOutputLocation fp dp root out).filename dp root out =
      buildFromRelative (buildOutputLocation fp dp root out).filename root out := by
    rw [buildOutputLocation_eq ((buildOutputLocation fp dp root out).filename) dp root out,
      relativePathOf_flat _ dp hs hb]
  rw [h1, buildFromRelative_flat_filename _ root out hs]
  have hpfx0 : folderPfxOf ([] : List String) = "" := by
    unfold folderPfxOf
    simp
  cases root with
  | none =>
    have hnil : prefixPartsOf [] (none : Option String) = [] := by decide
    rw [hnil, hpfx0]
    unfold finalFilenameOf
    rw [if_pos (jsStartsWith_empty _)]
  | some r =>
    by_cases hr : r = ""
    · subst hr
      have hnil : prefixPartsOf [] (some "") = [] := by decide
      rw [hnil, hpfx0]
      unfold finalFilenameOf
      rw [if_pos (jsStartsWith_empty _)]
    · have hpp : prefixPartsOf [] (some r) = [r] := by
        rw [prefixPartsOf_nil_parts, if_pos (truthy_some_true r hr)]
        rfl
      have hpfxr : folderPfxOf [r] = r ++ "-" := by
        unfold folderPfxOf
        rw [if_pos (by simp)]
        rfl
      rw [hpp, hpfxr]
      have hfsw : jsStartsWith (buildOutputLocation fp dp (some r) out).filename
          (r ++ "-") = true :=
        filename_startsWith_root (relativePathOf fp dp) r out hr
      unfold finalFilenameOf
      rw [if_pos hfsw]

/-- Witness for C4 at a concrete quadruple. -/
theorem c4_build_filename_idempotent_witness :
    (buildOutputLocation (buildOutputLocation "docs/a/b.md" "docs" (some "code")
        "./output").filename "docs" (some "code") "./output").filename =
      (buildOutputLocation "docs/a/b.md" "docs" (some "code") "./output").filename :=
  c4_build_filename_idempotent "docs/a/b.md" "docs" (some "code") "./output"
    (fun r hr => by cases hr; exact ⟨by decide, by decide⟩)

/-- C5: with a truthy (present, non-empty) output root, when the folder
parts are non-empty and their first element equals the root, the folder
parts are not appended, so the prefix-segment list is exactly the root;
the comparison is only against the first folder part (a root value
recurring later is appended again), as the concrete cases show. -/
theorem c5_first_folder_part_dedup :
    (∀ parts r, r ≠ "" → parts ≠ [] → parts.headD "" = r →
      prefixPartsOf parts (some r) = [r]) ∧
    prefixPartsOf ["a", "code"] (some "code") = ["code", "a", "code"] ∧
    (buildOutputLocation "docs/code/api.md" "docs" (some "code") "./o").filename =
      "code-api.md" ∧
    (buildOutputLocation "docs/a/code/f.md" "docs" (some "code") "./o").filename =
      "code-a-code-f.md" := by
  refine ⟨?_, by decide, by decide, by decide⟩
  intro parts r hr hne hhead
  have ht := truthy_some_true r hr
  unfold prefixPartsOf
  rw [ht, hhead]
  simp

/-- Witness for C5 at concrete inputs. -/
theorem c5_first_folder_part_dedup_witness :
    prefixPartsOf ["code"] (some "code") = ["code"] :=
  c5_first_folder_part_dedup.1 ["code"] "code" (by decide) (by decide) (by decide)

/-- C6 counterexample: `computeOutputRoot` does not treat the backslash
as a separator, so a backslash-delimited path is not segmented like the
slash-delimited one. -/
theorem c6_counterexample :
    computeOutputRoot "docs\\code" ≠ computeOutputRoot "docs/code" := by decide

/-- C6 amended: `computeOutputRoot` segments only on `/`; the backslash
is an ordinary character, so `"docs\\code"` is a single segment returned
verbatim while `"docs/code"` resolves to `"code"`. -/
theorem c6_no_backslash_normalization :
    segmentsOf "docs\\code" = ["docs\\code"] ∧
    computeOutputRoot "docs\\code" = some "docs\\code" ∧
    computeOutputRoot "docs/code" = some "code" := ⟨by decide, by decide, by decide⟩

/-- C7: `computeOutputRoot` depends only on the non-empty segments, and
adding leading slashes, trailing slashes or duplicating an interior
slash leaves the segments (hence the result) unchanged; the literal
equalities hold. -/
theorem c7_separator_insensitive :
    (∀ p q, segmentsOf p = segmentsOf q → computeOutputRoot p = computeOutputRoot q) ∧
    (∀ s, segmentsOf ("/" ++ s) = segmentsOf s) ∧
    (∀ s, segmentsOf (s ++ "/") = segmentsOf s) ∧
    (∀ a b, segmentsOf (a ++ "//" ++ b) = segmentsOf (a ++ "/" ++ b)) ∧
    computeOutputRoot "docs/code" = computeOutputRoot "//docs/code//" ∧
    computeOutputRoot "docs/code" = computeOutputRoot "docs//code" := by
  refine ⟨?_, segmentsOf_leading_sep, segmentsOf_trailing_sep, segmentsOf_double_sep,
    by decide, by decide⟩
  intro p q h
  unfold computeOutputRoot
  rw [h]

/-- Witness for C7: the congruence conjunct applied at concrete paths. -/
theorem c7_separator_insensitive_witness :
    computeOutputRoot "docs/code" = computeOutputRoot "/docs/code" :=
  c7_separator_insensitive.1 "docs/code" "/docs/code" (by decide)

/-- C8: when the backslash-normalized file path does not start with
`documentPath + "/"`, the full normalized path is used as the relative
path and the build flattens that full path (totality is inherent in the
embedding: every input produces a value). -/
theorem c8_fallback_full_path (fp dp : String)
    (h : jsStartsWith (normalizeSeps fp) (dp ++ "/") = false) :
    relativePathOf fp dp = normalizeSeps fp ∧
    ∀ root out, buildOutputLocation fp dp root out =
      buildFromRelative (normalizeSeps fp) root out := by
  have hrel : relativePathOf fp dp = normalizeSeps fp := by
    unfold relativePathOf
    rw [h]
    simp
  exact ⟨hrel, fun root out => by unfold buildOutputLocation; rw [hrel]⟩

/-- Witness for C8 at a concrete input whose path does not start with
its claimed documentation path. -/
theorem c8_fallback_full_path_witness :
    relativePathOf "other/x.md" "docs" = normalizeSeps "other/x.md" ∧
    (buildOutputLocation "other/x.md" "docs" none "./output").filename = "other-x.md" :=
  ⟨(c8_fallback_full_path "other/x.md" "docs" (by decide)).1, by decide⟩

/-- C9 counterexample: on the empty documentation path the code returns
the empty string, not the absent value (`undefined`). -/
theorem c9_counterexample : computeOutputRoot "" ≠ none := by decide

/-- C9 amended: a documentation path segmenting to zero effective
segments makes `computeOutputRoot` return the empty string — a defined
value, so nothing is raised — which is falsy and hence treated as
absent by `buildOutputLocation`. -/
theorem c9_empty_path_result :
    (∀ dp, segmentsOf dp = [] →
      computeOutputRoot dp = some "" ∧ truthy (computeOutputRoot dp) = false) ∧
    computeOutputRoot "" = some "" ∧ computeOutputRoot "///" = some "" := by
  refine ⟨?_, by decide, by decide⟩
  intro dp h
  unfold computeOutputRoot
  rw [h]
  exact ⟨by decide, by decide⟩

/-- Witness for C9 at the empty path. -/
theorem c9_empty_path_result_witness :
    segmentsOf "" = [] ∧ computeOutputRoot "" = some "" :=
  ⟨by decide, (c9_empty_path_result.1 "" (by decide)).1⟩

/-- C10: passing the empty string as the output root produces exactly
the same OutputLocation as passing an absent output root, because the
empty string is falsy everywhere the root is used. -/
theorem c10_empty_root_eq_absent (fp dp out : String) :
    buildOutputLocation fp dp (some "") out = buildOutputLocation fp dp none out := rfl

end GithubDocsExtractor
